import Mathlib

/-!
Verification development for the core of a percolator-style MVCC
transaction engine layered on a snapshotable KV engine, and for the
raftstore region peer (propose / apply / split / transfer-leader paths).

The definitions are a shallow embedding of `src/storage/mvcc/txn.rs`,
`src/storage/txn/store.rs` and `src/raftstore/store/peer.rs`.
Byte strings are `List Nat`; machine integers are `Nat` (with explicit
`% 2^64` where wrap-around matters); fallible code returns `Except`.
The unbounded page-chain walks of the source are given an explicit
`fuel` bound on the number of overflow pages followed.
-/

namespace Tikv

abbrev Bytes := List Nat
abbrev Key := Bytes
abbrev Value := Bytes

/-- Two-phase-commit lock kinds (`MetaLockType` of `kvproto::mvccpb`). -/
inductive MetaLockType where
  | readWrite
  | readOnly
deriving DecidableEq, Repr

/-- A committed-version record (`MetaItem` of `kvproto::mvccpb`). -/
structure MetaItem where
  start_ts : Nat
  commit_ts : Nat
deriving DecidableEq, Repr

/-- The current lock record for a key (`MetaLock` of `kvproto::mvccpb`). -/
structure MetaLock where
  lock_type : MetaLockType
  primary : Bytes
  start_ts : Nat
deriving DecidableEq, Repr

/-- Modelled from the spec: `storage/mvcc/meta.rs` is not part of the
sources at hand, only its interface is used by `txn.rs`.  A meta page is
an ordered list of `MetaItem`s, newest first, with an optional link to
the next (older) page of the chain. -/
structure Meta where
  items : List MetaItem
  next : Option Nat
deriving DecidableEq, Repr

/-- Modelled from the spec: the head page of a meta chain is always keyed
at the fixed sentinel `FIRST_META_INDEX`. -/
def FIRST_META_INDEX : Nat := 0

/-- Modelled from the spec: a meta page splits once it grows past
`META_SPLIT_SIZE`; the concrete bound of `meta.rs` is not in the sources,
any positive bound realises the spec. -/
def META_SPLIT_SIZE : Nat := 4

def Meta.new : Meta := ⟨[], none⟩

def Meta.iter_items (m : Meta) : List MetaItem := m.items

def Meta.next_index (m : Meta) : Option Nat := m.next

/-- Modelled from the spec: committing pushes the new item onto the
newest meta page (items are kept newest first). -/
def Meta.push_item (m : Meta) (it : MetaItem) : Meta :=
  ⟨it :: m.items, m.next⟩

/-- Modelled from the spec: the index assigned to a freshly split-off
page, the next unused meta index after the head's current link. -/
def Meta.split_index (m : Meta) : Nat :=
  match m.next with
  | none => FIRST_META_INDEX + 1
  | some i => i + 1

/-- Modelled from the spec: when a page grows past `META_SPLIT_SIZE` the
older tail migrates to a new page keyed by the next unused meta index and
the head keeps the newer items with `next_index` pointing at the new
page.  Returns the optional split-off page with its index, and the head
page after the split. -/
def Meta.split (m : Meta) : Option (Meta × Nat) × Meta :=
  if m.items.length ≤ META_SPLIT_SIZE then (none, m)
  else
    let idx := m.split_index
    (some (⟨m.items.drop META_SPLIT_SIZE, m.next⟩, idx),
     ⟨m.items.take META_SPLIT_SIZE, some idx⟩)

/-- A byte string stored in the default column family, represented by
what it decodes to: either plain value bytes or an encoded meta page. -/
inductive Cell where
  | value (v : Value)
  | page (m : Meta)
deriving DecidableEq, Repr

/-- A point-in-time view of the engine: the `lock` column family keyed by
raw key, and the default column family keyed by `raw_key ⊕ u64-suffix`
(data versions and meta pages share this keyspace, as in the source). -/
structure EngineState where
  lockCF : Key → Option MetaLock
  defaultCF : Key → Nat → Option Cell

def EngineState.empty : EngineState :=
  ⟨fun _ => none, fun _ _ => none⟩

/-- One pending engine mutation (`Modify` of `storage::engine`),
restricted to the shapes `txn.rs` produces. -/
inductive Modify where
  | putLock (k : Key) (l : MetaLock)
  | delLock (k : Key)
  | putDefault (k : Key) (ts : Nat) (c : Cell)
  | delDefault (k : Key) (ts : Nat)
deriving DecidableEq, Repr

def EngineState.applyModify (s : EngineState) : Modify → EngineState
  | .putLock k l =>
      { s with lockCF := fun k' => if k' = k then some l else s.lockCF k' }
  | .delLock k =>
      { s with lockCF := fun k' => if k' = k then none else s.lockCF k' }
  | .putDefault k ts c =>
      { s with defaultCF := fun k' ts' =>
          if k' = k ∧ ts' = ts then some c else s.defaultCF k' ts' }
  | .delDefault k ts =>
      { s with defaultCF := fun k' ts' =>
          if k' = k ∧ ts' = ts then none else s.defaultCF k' ts' }

/-- Atomic batch write: all modifications applied in order. -/
def EngineState.applyAll (s : EngineState) (ws : List Modify) : EngineState :=
  ws.foldl EngineState.applyModify s

/-- MVCC errors (`storage::mvcc::Error`), plus `badMeta` for a failed
`Meta::parse` and `chainTooDeep` for exhausting the page-walk fuel. -/
inductive MvccError where
  | keyIsLocked (key : Bytes) (primary : Bytes) (ts : Nat)
  | writeConflict
  | txnLockNotFound
  | alreadyCommitted (commit_ts : Nat)
  | badMeta
  | chainTooDeep
deriving DecidableEq, Repr

/-- Source `MvccSnapshot::load_lock`. -/
def load_lock (s : EngineState) (k : Key) : Option MetaLock := s.lockCF k

/-- Source `MvccSnapshot::load_meta`: a missing page parses as the empty meta,
value bytes in a meta slot fail to parse. -/
def load_meta (s : EngineState) (k : Key) (idx : Nat) : Except MvccError Meta :=
  match s.defaultCF k idx with
  | some (.page m) => .ok m
  | some (.value _) => .error .badMeta
  | none => .ok Meta.new

/-- Source `MvccSnapshot::get_impl`: find the first item of the meta chain with
`commit_ts ≤ ts`, page by page, and return the engine value stored at
`raw_key ⊕ item.start_ts`; `fuel` bounds the overflow pages followed. -/
def get_impl (s : EngineState) (k : Key) (ts : Nat) : Nat → Meta → Except MvccError (Option Cell)
  | fuel, m =>
    match m.iter_items.find? (fun it => decide (it.commit_ts ≤ ts)) with
    | some it => .ok (s.defaultCF k it.start_ts)
    | none =>
      match m.next_index with
      | none => .ok none
      | some idx =>
        match fuel with
        | 0 => .error .chainTooDeep
        | fuel' + 1 =>
          match load_meta s k idx with
          | .error e => .error e
          | .ok m' => get_impl s k ts fuel' m'

/-- Source `MvccSnapshot::get`: a lock whose `start_ts ≤ ts` blocks the read,
otherwise resolve through the meta chain. -/
def snapshot_get (s : EngineState) (ts : Nat) (k : Key) (fuel : Nat) :
    Except MvccError (Option Cell) :=
  match load_lock s k with
  | some lock =>
    if lock.start_ts ≤ ts then
      .error (.keyIsLocked k lock.primary lock.start_ts)
    else
      match load_meta s k FIRST_META_INDEX with
      | .error e => .error e
      | .ok m => get_impl s k ts fuel m
  | none =>
    match load_meta s k FIRST_META_INDEX with
    | .error e => .error e
    | .ok m => get_impl s k ts fuel m

/-- Source `MvccSnapshot::get_txn_commit_ts`: locate `start_ts` in the meta
chain; the first item with `item.start_ts ≤ start_ts` decides. -/
def get_txn_commit_ts (s : EngineState) (k : Key) (start_ts : Nat) :
    Nat → Meta → Except MvccError (Option Nat)
  | fuel, m =>
    match m.iter_items.find? (fun it => decide (it.start_ts ≤ start_ts)) with
    | some it => .ok (if it.start_ts = start_ts then some it.commit_ts else none)
    | none =>
      match m.next_index with
      | none => .ok none
      | some idx =>
        match fuel with
        | 0 => .error .chainTooDeep
        | fuel' + 1 =>
          match load_meta s k idx with
          | .error e => .error e
          | .ok m' => get_txn_commit_ts s k start_ts fuel' m'

/-- Source `MvccCursor::get_version` after the head page has been loaded: the
first item of the chain with `commit_ts ≤ ts` yields its `start_ts`. -/
def get_version_chain (s : EngineState) (k : Key) (ts : Nat) :
    Nat → Meta → Except MvccError (Option Nat)
  | fuel, m =>
    match m.iter_items.find? (fun it => decide (it.commit_ts ≤ ts)) with
    | some it => .ok (some it.start_ts)
    | none =>
      match m.next_index with
      | none => .ok none
      | some idx =>
        match fuel with
        | 0 => .error .chainTooDeep
        | fuel' + 1 =>
          match load_meta s k idx with
          | .error e => .error e
          | .ok m' => get_version_chain s k ts fuel' m'

/-- Source `MvccCursor::get_version`. -/
def get_version (s : EngineState) (k : Key) (ts : Nat) (fuel : Nat) :
    Except MvccError (Option Nat) :=
  match load_meta s k FIRST_META_INDEX with
  | .error e => .error e
  | .ok m => get_version_chain s k ts fuel m

/-- A client mutation (`storage::Mutation`). -/
inductive Mutation where
  | put (k : Key) (v : Value)
  | del (k : Key)
  | lock (k : Key)
deriving DecidableEq, Repr

def Mutation.key : Mutation → Key
  | .put k _ => k
  | .del k => k
  | .lock k => k

/-- Source `meta_lock_type` of `txn.rs`: Put/Delete take ReadWrite locks, Lock
takes a ReadOnly lock. -/
def meta_lock_type : Mutation → MetaLockType
  | .put _ _ => .readWrite
  | .del _ => .readWrite
  | .lock _ => .readOnly

/-- Source `MvccTxn::write_meta`: stage the optional split-off page, then the
head page at `FIRST_META_INDEX`. -/
def write_meta (k : Key) (m : Meta) : List Modify :=
  match m.split with
  | (some (tail, idx), head) =>
      [.putDefault k idx (.page tail), .putDefault k FIRST_META_INDEX (.page head)]
  | (none, head) =>
      [.putDefault k FIRST_META_INDEX (.page head)]

/-- What a successful prewrite stages: the lock record (`lock_key`) and,
for Put, the value write at `k ⊕ start_ts`. -/
def prewrite_staged (k : Key) (start_ts : Nat) (primary : Bytes)
    (mutation : Mutation) : List Modify :=
  Modify.putLock k ⟨meta_lock_type mutation, primary, start_ts⟩ ::
    (match mutation with
     | .put _ v => [Modify.putDefault k start_ts (.value v)]
     | _ => [])

/-- Source `MvccTxn::prewrite`: write-conflict against the newest item of the
first meta page, foreign-lock check, then stage the lock record and (for
Put) the value write at `k ⊕ start_ts`.  Returns the staged writes. -/
def prewrite (s : EngineState) (start_ts : Nat) (mutation : Mutation) (primary : Bytes) :
    Except MvccError (List Modify) :=
  let k := mutation.key
  match load_meta s k FIRST_META_INDEX with
  | .error e => .error e
  | .ok meta =>
    let conflict :=
      match meta.iter_items.head? with
      | some latest => decide (start_ts ≤ latest.commit_ts)
      | none => false
    if conflict then .error .writeConflict
    else
      match load_lock s k with
      | some lock =>
        if lock.start_ts ≠ start_ts then
          .error (.keyIsLocked k lock.primary lock.start_ts)
        else
          .ok (prewrite_staged k start_ts primary mutation)
      | none => .ok (prewrite_staged k start_ts primary mutation)

/-- Source `MvccTxn::commit_impl`: with a matching lock, a ReadWrite lock pushes
`{start_ts, commit_ts}` onto the page and the lock is deleted; otherwise
the meta chain decides between already-committed (ok) and rolled-back
(`TxnLockNotFound`).  Returns staged writes and the updated head page. -/
def commit_impl (s : EngineState) (start_ts : Nat) (k : Key) (commit_ts : Nat)
    (meta : Meta) (fuel : Nat) : Except MvccError (List Modify × Meta) :=
  match load_lock s k with
  | some lock =>
    if lock.start_ts = start_ts then
      let meta' :=
        if lock.lock_type = MetaLockType.readWrite then
          meta.push_item ⟨start_ts, commit_ts⟩
        else meta
      .ok ([Modify.delLock k], meta')
    else
      match get_txn_commit_ts s k start_ts fuel meta with
      | .error e => .error e
      | .ok (some _) => .ok ([], meta)
      | .ok none => .error .txnLockNotFound
  | none =>
    match get_txn_commit_ts s k start_ts fuel meta with
    | .error e => .error e
    | .ok (some _) => .ok ([], meta)
    | .ok none => .error .txnLockNotFound

/-- Source `MvccTxn::commit`: load the head page, run `commit_impl`, rewrite the
meta chain.  Returns the staged writes. -/
def commit (s : EngineState) (start_ts : Nat) (k : Key) (commit_ts : Nat)
    (fuel : Nat) : Except MvccError (List Modify) :=
  match load_meta s k FIRST_META_INDEX with
  | .error e => .error e
  | .ok meta =>
    match commit_impl s start_ts k commit_ts meta fuel with
    | .error e => .error e
    | .ok (ws, meta') => .ok (ws ++ write_meta k meta')

/-- Source `MvccTxn::rollback_impl`: with a matching lock, delete the pending
value at `k ⊕ start_ts` and the lock; otherwise the meta chain decides
between `AlreadyCommitted` and an idempotent no-op. -/
def rollback_impl (s : EngineState) (start_ts : Nat) (k : Key)
    (meta : Meta) (fuel : Nat) : Except MvccError (List Modify) :=
  match load_lock s k with
  | some lock =>
    if lock.start_ts = start_ts then
      .ok [Modify.delDefault k lock.start_ts, Modify.delLock k]
    else
      match get_txn_commit_ts s k start_ts fuel meta with
      | .error e => .error e
      | .ok (some ts) => .error (.alreadyCommitted ts)
      | .ok none => .ok []
  | none =>
    match get_txn_commit_ts s k start_ts fuel meta with
    | .error e => .error e
    | .ok (some ts) => .error (.alreadyCommitted ts)
    | .ok none => .ok []

/-- Source `MvccTxn::rollback`. -/
def rollback (s : EngineState) (start_ts : Nat) (k : Key) (fuel : Nat) :
    Except MvccError (List Modify) :=
  match load_meta s k FIRST_META_INDEX with
  | .error e => .error e
  | .ok meta =>
    match rollback_impl s start_ts k meta fuel with
    | .error e => .error e
    | .ok ws => .ok (ws ++ write_meta k meta)

/-- One MVCC step as the tests drive it: stage the writes against a
snapshot of `s`, then apply them to the engine. -/
def prewriteRun (s : EngineState) (start_ts : Nat) (mutation : Mutation)
    (primary : Bytes) : Except MvccError EngineState :=
  (prewrite s start_ts mutation primary).map s.applyAll

def commitRun (s : EngineState) (start_ts : Nat) (k : Key) (commit_ts : Nat)
    (fuel : Nat) : Except MvccError EngineState :=
  (commit s start_ts k commit_ts fuel).map s.applyAll

def rollbackRun (s : EngineState) (start_ts : Nat) (k : Key) (fuel : Nat) :
    Except MvccError EngineState :=
  (rollback s start_ts k fuel).map s.applyAll

/-- Projection used to state error results without comparing states. -/
def errOf {α : Type} : Except MvccError α → Option MvccError
  | .error e => some e
  | .ok _ => none

/-- The loop of `TxnStore::prewrite`: each mutation is prewritten against
the same snapshot; a `KeyIsLocked` failure is recorded per mutation and
the loop continues, any other error aborts the whole call. -/
def store_prewrite_loop (s : EngineState) (start_ts : Nat) (primary : Bytes) :
    List Mutation → List (Except MvccError Unit) → List Modify →
    Except MvccError (List (Except MvccError Unit) × List Modify)
  | [], results, writes => .ok (results, writes)
  | m :: rest, results, writes =>
    match prewrite s start_ts m primary with
    | .ok w => store_prewrite_loop s start_ts primary rest (results ++ [.ok ()]) (writes ++ w)
    | .error (.keyIsLocked a b c) =>
        store_prewrite_loop s start_ts primary rest
          (results ++ [.error (.keyIsLocked a b c)]) writes
    | .error e => .error e

/-- Source `TxnStore::prewrite`: run the loop, then write the staged
modifications to the engine; on an aborting error nothing is written.
Returns the per-mutation results (or the aborting error) together with
the resulting engine state. -/
def store_prewrite (s : EngineState) (mutations : List Mutation)
    (primary : Bytes) (start_ts : Nat) :
    Except MvccError (List (Except MvccError Unit)) × EngineState :=
  match store_prewrite_loop s start_ts primary mutations [] [] with
  | .ok (results, writes) => (.ok results, s.applyAll writes)
  | .error e => (.error e, s)

/-! ## Raftstore: region peer (`src/raftstore/store/peer.rs`) -/

/-- Source `region_epoch = (version, conf_ver)`. -/
structure RegionEpoch where
  version : Nat
  conf_ver : Nat
deriving DecidableEq, Repr

/-- One peer of a region (`metapb::Peer`). -/
structure PeerMeta where
  id : Nat
  store_id : Nat
deriving DecidableEq, Repr

/-- Source `metapb::Region`. -/
structure Region where
  id : Nat
  start_key : Bytes
  end_key : Bytes
  peers : List PeerMeta
  epoch : RegionEpoch
deriving DecidableEq, Repr

/-- Lexicographic order on byte strings (Rust `&[u8]` comparison). -/
def bytesLt : Bytes → Bytes → Bool
  | [], [] => false
  | [], _ :: _ => true
  | _ :: _, [] => false
  | a :: as, b :: bs => decide (a < b) || (decide (a = b) && bytesLt as bs)

def bytesLe (a b : Bytes) : Bool := bytesLt a b || decide (a = b)

/-- Modelled from the spec: `util::check_key_in_region` is not in the
sources at hand; the spec requires the split key to lie in `[start, end)`
where an empty end key means the range is right-unbounded. -/
def check_key_in_region (key : Bytes) (r : Region) : Bool :=
  bytesLe r.start_key key && (decide (r.end_key = []) || bytesLt key r.end_key)

/-- The Split admin request (`raft_cmdpb::SplitRequest`). -/
structure SplitRequest where
  has_split_key : Bool
  split_key : Bytes
  new_region_id : Nat
  new_peer_ids : List Nat
deriving DecidableEq, Repr

/-- What `exec_split` stages into the apply write batch: both region
states, plus the initial Raft state of the new (right) region.
`initialRaftState` is modelled from the spec (`write_initial_state` of
`peer_storage.rs` is not in the sources at hand). -/
inductive StagedWrite where
  | regionState (id : Nat) (r : Region)
  | initialRaftState (id : Nat)
deriving DecidableEq, Repr

/-- Errors surfaced by the peer apply path that the claims mention. -/
inductive RaftError where
  | boxErr (msg : String)
  | keyNotInRegion
  | appliedIndexMovedBack
deriving DecidableEq, Repr

/-- Source `Peer::exec_split`: validate the request, derive the left region
`[start, split_key)` keeping the original id and the right region
`[split_key, end)` under `new_region_id` with renumbered peers, bump both
versions, and stage both region states plus the right region's initial
Raft state. -/
def exec_split (region : Region) (req : SplitRequest) :
    Except RaftError (Region × Region × List StagedWrite) :=
  if !req.has_split_key then .error (.boxErr "missing split key")
  else if bytesLe req.split_key region.start_key then
    .error (.boxErr "invalid split request")
  else if !check_key_in_region req.split_key region then
    .error .keyNotInRegion
  else if req.new_peer_ids.length ≠ region.peers.length then
    .error (.boxErr "invalid new peer id count")
  else
    let left := { region with end_key := req.split_key }
    let new_peers := (region.peers.zip req.new_peer_ids).map
      (fun pi => { pi.1 with id := pi.2 })
    let version' := region.epoch.version + 1
    let left := { left with epoch := { left.epoch with version := version' } }
    let right : Region :=
      { id := req.new_region_id
        start_key := req.split_key
        end_key := region.end_key
        peers := new_peers
        epoch := { region.epoch with version := version' } }
    .ok (left, right,
      [.regionState left.id left, .regionState right.id right,
       .initialRaftState right.id])

/-- Raft replication progress of one peer (`raft::Progress`),
restricted to the fields `is_tranfer_leader_allowed` inspects. -/
inductive ProgressState where
  | probe
  | replicate
  | snapshot
deriving DecidableEq, Repr

structure Progress where
  matched : Nat
  state : ProgressState
deriving DecidableEq, Repr

/-- The parts of `raft::Status` and the Raft store that the
transfer-leader pre-check reads: the progress map (an association list
keyed by peer id) and the last log index. -/
structure RaftView where
  progress : List (Nat × Progress)
  last_index : Nat
deriving DecidableEq, Repr

def RaftView.find_progress (v : RaftView) (peer_id : Nat) : Option Progress :=
  (v.progress.find? (fun p => decide (p.1 = peer_id))).map Prod.snd

def TRANSFER_LEADER_ALLOW_LOG_LAG : Nat := 10

/-- Source `Peer::is_tranfer_leader_allowed` (source spelling kept): the target
must be in the progress map, no peer may be receiving a snapshot, and the
target may lag the leader's last index by at most
`TRANSFER_LEADER_ALLOW_LOG_LAG` entries. -/
def is_tranfer_leader_allowed (v : RaftView) (peer_id : Nat) : Bool :=
  match v.find_progress peer_id with
  | none => false
  | some pr =>
    if v.progress.any (fun p => decide (p.2.state = ProgressState.snapshot)) then
      false
    else
      decide (v.last_index ≤ pr.matched + TRANSFER_LEADER_ALLOW_LOG_LAG)

/-- The request kinds `Peer::propose` dispatches on; the payload of a
normal or conf-change request is kept abstract. -/
inductive ProposeReq where
  | transferLeader (target : Nat)
  | changePeer (payload : Nat)
  | normal (payload : Nat)
deriving DecidableEq, Repr

/-- How `propose` answers the client callback. -/
inductive ProposeResp where
  | errResp
  | transferLeaderResp
  | pendingResp
deriving DecidableEq, Repr

/-- The observable outcome of one `Peer::propose` call: the Raft entries
proposed (payloads of normal entries and conf changes), whether Raft
`transfer_leader` was invoked and towards whom, and the immediate
callback response, if any (`pendingResp` means the callback was queued
rather than called). -/
structure ProposeOutcome where
  proposed : List Nat
  transferred : Option Nat
  resp : ProposeResp
deriving DecidableEq, Repr

/-- The epoch check of `Peer::check_epoch` for a transfer-leader request:
both `version` and `conf_ver` of the request must be at least the
region's latest. -/
def check_epoch_transfer (from_epoch : Option RegionEpoch) (latest : RegionEpoch) : Bool :=
  match from_epoch with
  | none => false
  | some e =>
    !(decide (e.conf_ver < latest.conf_ver) || decide (e.version < latest.version))

/-- Source `Peer::propose` restricted to the inputs the transfer-leader claim
exercises: the duplicate-uuid guard, the epoch check, then the dispatch.
A transfer-leader command is never handed to Raft: the pre-check decides
whether Raft `transfer_leader` is invoked and the callback is answered
immediately with a TransferLeader response either way.  Normal and
conf-change requests propose their payload through Raft. -/
def propose (pending_uuids : List Nat) (uuid : Nat)
    (from_epoch : Option RegionEpoch) (latest : RegionEpoch)
    (view : RaftView) (req : ProposeReq) : ProposeOutcome :=
  if uuid ∈ pending_uuids then ⟨[], none, .errResp⟩
  else
    match req with
    | .transferLeader target =>
      if !check_epoch_transfer from_epoch latest then ⟨[], none, .errResp⟩
      else if is_tranfer_leader_allowed view target then
        ⟨[], some target, .transferLeaderResp⟩
      else
        ⟨[], none, .transferLeaderResp⟩
    | .changePeer payload => ⟨[payload], none, .pendingResp⟩
    | .normal payload => ⟨[payload], none, .pendingResp⟩

/-- Source `RaftApplyState` restricted to what `apply_raft_cmd` touches. -/
structure ApplyState where
  applied_index : Nat
  truncated_index : Nat
  truncated_term : Nat
deriving DecidableEq, Repr

/-- The peer state read and written by `apply_raft_cmd`. -/
structure PeerApply where
  pending_remove : Bool
  apply_state : ApplyState
  region : Region
deriving DecidableEq, Repr

/-- Responses of the apply path as far as the claims observe them. -/
inductive ApplyResp where
  | regionNotFound
  | normal
  | execErrorResp (e : RaftError)
deriving DecidableEq, Repr

/-- Source `Peer::apply_raft_cmd`: a pending-remove peer answers RegionNotFound
without touching state; an entry at or below the applied index is a fatal
error; otherwise the command is executed (its outcome is a parameter
here: a response plus an optional region update from an admin command, or
an execution error which is converted into an error response), the new
applied index is persisted in the same batch, and the storage fields are
updated. -/
def apply_raft_cmd (p : PeerApply) (index : Nat)
    (exec_outcome : Except RaftError (ApplyResp × Option Region)) :
    Except RaftError (ApplyResp × PeerApply) :=
  if p.pending_remove then .ok (.regionNotFound, p)
  else if p.apply_state.applied_index ≥ index then .error .appliedIndexMovedBack
  else
    let ro : ApplyResp × Option Region :=
      match exec_outcome with
      | .ok x => x
      | .error e => (.execErrorResp e, none)
    let p' : PeerApply :=
      { p with
        apply_state := { p.apply_state with applied_index := index }
        region := ro.2.getD p.region }
    .ok (ro.1, p')

/-- Modelled from the spec: `keys::data_key` (not in the sources at hand)
prepends the `data` keyspace marker to a raw key. -/
def data_key (k : Bytes) : Bytes := [100, 97, 116, 97, 47] ++ k

def U64_MOD : Nat := 2 ^ 64

/-- Rust `u64::checked_add`. -/
def checked_add (a b : Nat) : Option Nat :=
  if a + b < U64_MOD then some (a + b) else none

/-- The `size_diff_hint` update performed by `Peer::do_put`: two guarded
`checked_add`s followed by two raw (wrapping) additions of the same
amounts, exactly as the source does. -/
def do_put_size_diff_hint (hint : Nat) (raw_key value : Bytes) : Nat :=
  let key := data_key raw_key
  let h1 := match checked_add hint key.length with
            | some d => d
            | none => hint
  let h2 := match checked_add h1 value.length with
            | some d => d
            | none => h1
  let h3 := (h2 + key.length) % U64_MOD
  (h3 + value.length) % U64_MOD

/-- The behaviour the spec declares intended for `do_put`:
`size_diff_hint += key.len() + value.len()` once, saturating. -/
def spec_put_size_diff_hint (hint : Nat) (raw_key value : Bytes) : Nat :=
  min (hint + (data_key raw_key).length + value.length) (U64_MOD - 1)

/-! ## Reference definitions and concrete scenario states -/

/-- The spec's description of visibility resolution, stated once as a
reference walk: the first `MetaItem` of the chain, page by page, whose
`commit_ts ≤ ts`.  Both the point-get path and the scan path are related
to this walk. -/
def first_visible (s : EngineState) (k : Key) (ts : Nat) :
    Nat → Meta → Except MvccError (Option MetaItem)
  | fuel, m =>
    match m.iter_items.find? (fun it => decide (it.commit_ts ≤ ts)) with
    | some it => .ok (some it)
    | none =>
      match m.next_index with
      | none => .ok none
      | some idx =>
        match fuel with
        | 0 => .error .chainTooDeep
        | fuel' + 1 =>
          match load_meta s k idx with
          | .error e => .error e
          | .ok m' => first_visible s k ts fuel' m'

/-- The raw key `"x"`. -/
def xK : Bytes := [120]

/-- The engine state after `prewrite(Put("x","v1"), start_ts = 5)` and
`commit(commit_ts = 10)` have each been applied, spelled out. -/
def putXs2 : EngineState :=
  (EngineState.empty.applyAll
      [.putLock [120] ⟨.readWrite, [120], 5⟩,
       .putDefault [120] 5 (.value [118, 49])]).applyAll
    [.delLock [120], .putDefault [120] FIRST_META_INDEX (.page ⟨[⟨5, 10⟩], none⟩)]

/-- The value `"v1"`. -/
def v1B : Bytes := [118, 49]

/-- The engine after `put("x", "v1")` with `start_ts = 5`,
`commit_ts = 10`, run through prewrite and commit from the empty
engine. -/
def putXstate : Except MvccError EngineState :=
  (prewriteRun EngineState.empty 5 (.put xK v1B) xK).bind
    (fun s1 => commitRun s1 5 xK 10 0)

/-- The engine after prewriting a ReadOnly `Lock("x")` at `start_ts = 5`
from the empty engine. -/
def lockS1 : EngineState :=
  EngineState.empty.applyAll [.putLock xK ⟨.readOnly, xK, 5⟩]

/-- Source `lockS1` after committing the ReadOnly lock at `commit_ts = 10`:
the lock is deleted and no meta item is recorded. -/
def lockS2 : EngineState :=
  lockS1.applyAll [.delLock xK, .putDefault xK FIRST_META_INDEX (.page Meta.new)]

/-- An engine holding only a ReadWrite lock on `"x"` at `start_ts = 5`. -/
def rwLockState : EngineState :=
  EngineState.empty.applyModify (.putLock xK ⟨.readWrite, xK, 5⟩)

/-- Source `rwLockState` after committing at `commit_ts = 10`. -/
def rwCommitted : EngineState :=
  rwLockState.applyAll
    [.delLock xK, .putDefault xK FIRST_META_INDEX (.page ⟨[⟨5, 10⟩], none⟩)]

/-- The state reached by rolling back an absent transaction on the empty
engine (just the rewritten empty head page). -/
def emptyRolledBack : EngineState :=
  EngineState.empty.applyAll [.putDefault xK FIRST_META_INDEX (.page Meta.new)]

/-- A two-page meta chain on `"x"`: the head page holds `{20, 25}` and
links to an overflow page holding `{10, 15}`. -/
def chainS0 : EngineState :=
  EngineState.empty.applyAll
    [.putDefault xK 1 (.page ⟨[⟨10, 15⟩], none⟩),
     .putDefault xK FIRST_META_INDEX (.page ⟨[⟨20, 25⟩], some 1⟩)]

/-- State `chainS0` after rolling back the absent transaction 5 (the
head page is rewritten unchanged, the overflow page stays). -/
def chainS1 : EngineState :=
  chainS0.applyAll [.putDefault xK FIRST_META_INDEX (.page ⟨[⟨20, 25⟩], some 1⟩)]

/-- A one-item meta page `{start_ts = 5, commit_ts = 10}`. -/
def onePage : Meta := ⟨[⟨5, 10⟩], none⟩

/-- A concrete region used by witnesses: `[ [] , [200] )` with two
peers. -/
def region0 : Region :=
  ⟨1, [], [200], [⟨4, 1⟩, ⟨5, 2⟩], ⟨3, 7⟩⟩

/-- The per-mutation outcome of the `TxnStore::prewrite` loop: every
mutation is prewritten against the same snapshot, so its outcome does
not depend on its position in the batch. -/
def prewrite_result (s : EngineState) (ts : Nat) (primary : Bytes)
    (mu : Mutation) : Except MvccError Unit :=
  (prewrite s ts mu primary).map (fun _ => ())

/-- The modifications a mutation stages when its prewrite succeeds. -/
def prewrite_writes (s : EngineState) (ts : Nat) (primary : Bytes)
    (mu : Mutation) : List Modify :=
  match prewrite s ts mu primary with
  | .ok w => w
  | .error _ => []

/-- Whether an MVCC error aborts the whole `TxnStore::prewrite` call
(everything except `KeyIsLocked` does). -/
def fatal_err : MvccError → Bool
  | .keyIsLocked _ _ _ => false
  | _ => true

/-! ## Helper lemmas -/

theorem EngineState.ext' {s t : EngineState} (h1 : s.lockCF = t.lockCF)
    (h2 : s.defaultCF = t.defaultCF) : s = t := by
  cases s; cases t; simp_all

@[simp] theorem applyAll_nil (s : EngineState) : s.applyAll [] = s := rfl

@[simp] theorem applyAll_cons (s : EngineState) (w : Modify) (ws : List Modify) :
    s.applyAll (w :: ws) = (s.applyModify w).applyAll ws := rfl

theorem applyAll_append (s : EngineState) (xs ys : List Modify) :
    s.applyAll (xs ++ ys) = (s.applyAll xs).applyAll ys := by
  induction xs generalizing s with
  | nil => rfl
  | cons a l ih => simp [ih]

@[simp] theorem lockCF_putLock (s : EngineState) (k : Key) (l : MetaLock) (k' : Key) :
    (s.applyModify (.putLock k l)).lockCF k' = if k' = k then some l else s.lockCF k' := rfl

@[simp] theorem lockCF_delLock (s : EngineState) (k : Key) (k' : Key) :
    (s.applyModify (.delLock k)).lockCF k' = if k' = k then none else s.lockCF k' := rfl

@[simp] theorem lockCF_putDefault (s : EngineState) (k : Key) (ts : Nat) (c : Cell) :
    (s.applyModify (.putDefault k ts c)).lockCF = s.lockCF := rfl

@[simp] theorem lockCF_delDefault (s : EngineState) (k : Key) (ts : Nat) :
    (s.applyModify (.delDefault k ts)).lockCF = s.lockCF := rfl

@[simp] theorem defaultCF_putLock (s : EngineState) (k : Key) (l : MetaLock) :
    (s.applyModify (.putLock k l)).defaultCF = s.defaultCF := rfl

@[simp] theorem defaultCF_delLock (s : EngineState) (k : Key) :
    (s.applyModify (.delLock k)).defaultCF = s.defaultCF := rfl

@[simp] theorem defaultCF_putDefault (s : EngineState) (k : Key) (ts : Nat) (c : Cell)
    (k' : Key) (ts' : Nat) :
    (s.applyModify (.putDefault k ts c)).defaultCF k' ts' =
      if k' = k ∧ ts' = ts then some c else s.defaultCF k' ts' := rfl

@[simp] theorem defaultCF_delDefault (s : EngineState) (k : Key) (ts : Nat)
    (k' : Key) (ts' : Nat) :
    (s.applyModify (.delDefault k ts)).defaultCF k' ts' =
      if k' = k ∧ ts' = ts then none else s.defaultCF k' ts' := rfl

/-- Re-putting a cell that is already stored is a no-op on the state. -/
theorem applyPut_self (s : EngineState) (k : Key) (ts : Nat) (c : Cell)
    (h : s.defaultCF k ts = some c) :
    s.applyModify (.putDefault k ts c) = s := by
  refine EngineState.ext' rfl ?_
  funext k' ts'
  simp only [defaultCF_putDefault]
  split
  · next hc => rcases hc with ⟨h1, h2⟩; subst h1; subst h2; exact h.symm
  · rfl

theorem split_of_le {m : Meta} (h : m.items.length ≤ META_SPLIT_SIZE) :
    m.split = (none, m) := by
  simp [Meta.split, h]

theorem split_snd_len_le (m : Meta) : (m.split).2.items.length ≤ META_SPLIT_SIZE := by
  by_cases h : m.items.length ≤ META_SPLIT_SIZE
  · simp [Meta.split, h]
  · simp [Meta.split, h, List.length_take]

theorem split_snd_head? (m : Meta) : (m.split).2.items.head? = m.items.head? := by
  by_cases h : m.items.length ≤ META_SPLIT_SIZE
  · simp [Meta.split, h]
  · simp only [Meta.split, h, if_neg, ite_false]
    cases m.items with
    | nil => rfl
    | cons a l => rfl

/-- After `write_meta`, the head page stored at `FIRST_META_INDEX` is the
post-split head. -/
theorem write_meta_defaultCF_first (s : EngineState) (k : Key) (m : Meta) :
    (s.applyAll (write_meta k m)).defaultCF k FIRST_META_INDEX =
      some (.page (m.split).2) := by
  unfold write_meta
  rcases hs : m.split with ⟨fst, head⟩
  cases fst with
  | none => simp
  | some ti =>
    rcases ti with ⟨tail, idx⟩
    simp

/-- Source `write_meta` only touches the default column family. -/
theorem write_meta_lockCF (s : EngineState) (k : Key) (m : Meta) :
    (s.applyAll (write_meta k m)).lockCF = s.lockCF := by
  unfold write_meta
  rcases hs : m.split with ⟨fst, head⟩
  cases fst with
  | none => simp
  | some ti =>
    rcases ti with ⟨tail, idx⟩
    simp

/-- A chain whose head page holds `{start_ts, commit_ts}` up front
resolves the transaction to `commit_ts`. -/
theorem get_txn_commit_ts_head (s : EngineState) (k : Key)
    (start_ts commit_ts : Nat) (fuel : Nat) (m : Meta) (rest : List MetaItem)
    (h : m.items = ⟨start_ts, commit_ts⟩ :: rest) :
    get_txn_commit_ts s k start_ts fuel m = .ok (some commit_ts) := by
  unfold get_txn_commit_ts
  simp [Meta.iter_items, h]

/-- A single-page chain that does not mention `start_ts` resolves the
transaction to "not committed", whatever the state and fuel. -/
theorem get_txn_commit_ts_no_next (s : EngineState) (k : Key)
    (start_ts : Nat) (fuel : Nat) (m : Meta)
    (hn : m.next_index = none)
    (hne : ∀ it ∈ m.items, it.start_ts ≠ start_ts) :
    get_txn_commit_ts s k start_ts fuel m = .ok none := by
  unfold get_txn_commit_ts
  cases hf : m.iter_items.find? (fun it => decide (it.start_ts ≤ start_ts)) with
  | none => simp [hf, hn]
  | some it =>
    have hmem : it ∈ m.items := by
      simpa [Meta.iter_items] using List.mem_of_find?_eq_some hf
    simp [hf, hne it hmem]

/-! ## Claims -/

/-- C5: `Peer::do_put` on a Put with raw key `"k"` (encoded data key of
length 6) and value `"v"` (length 1), starting from `size_diff_hint = 0`,
leaves the hint at 14 — the amount `key.len() + value.len()` is added
twice (once through the `checked_add` pair, once through the raw `+=`
pair) — while the specified behaviour adds it exactly once, yielding 7. -/
theorem C5_do_put_double_increment :
    do_put_size_diff_hint 0 [107] [118] = 14 ∧
    spec_put_size_diff_hint 0 [107] [118] = 7 := by
  constructor <;> rfl

/-- C8 (amended): for a peer that is not marked `pending_remove`,
`apply_raft_cmd` rejects an entry whose index is at or below the current
applied index with an error and no state change, and otherwise applies
the entry, leaving `applied_index` equal to the entry's index — hence
strictly increased.  (A peer with `pending_remove` set instead answers
`RegionNotFound` without an error, see the counterexample.) -/
theorem C8_applied_index_guard (p : PeerApply) (index : Nat)
    (exec_outcome : Except RaftError (ApplyResp × Option Region))
    (h : p.pending_remove = false) :
    (index ≤ p.apply_state.applied_index →
      apply_raft_cmd p index exec_outcome = .error .appliedIndexMovedBack) ∧
    (p.apply_state.applied_index < index →
      ∃ resp p', apply_raft_cmd p index exec_outcome = .ok (resp, p') ∧
        p'.apply_state.applied_index = index ∧
        p.apply_state.applied_index < p'.apply_state.applied_index) := by
  unfold apply_raft_cmd
  simp only [h, Bool.false_eq_true, if_false]
  constructor
  · intro hle
    rw [if_pos hle]
  · intro hlt
    rw [if_neg (by omega)]
    exact ⟨_, _, rfl, rfl, hlt⟩

/-- C8 counterexample: with `pending_remove` set, an entry whose index
(3) is at or below the applied index (5) is answered `RegionNotFound`
with `Ok`, not with an error as the claim states. -/
theorem C8_pending_remove_counterexample :
    apply_raft_cmd ⟨true, ⟨5, 0, 0⟩, region0⟩ 3 (.ok (.normal, none)) =
      .ok (.regionNotFound, ⟨true, ⟨5, 0, 0⟩, region0⟩) := rfl

/-- C8 witness: at `applied_index = 5`, index 5 is rejected and index 6
is applied, leaving `applied_index = 6`. -/
theorem C8_applied_index_guard_witness :
    apply_raft_cmd ⟨false, ⟨5, 0, 0⟩, region0⟩ 5 (.ok (.normal, none)) =
      .error .appliedIndexMovedBack ∧
    ∃ resp p',
      apply_raft_cmd ⟨false, ⟨5, 0, 0⟩, region0⟩ 6 (.ok (.normal, none)) =
        .ok (resp, p') ∧
      p'.apply_state.applied_index = 6 ∧
      5 < p'.apply_state.applied_index :=
  ⟨(C8_applied_index_guard ⟨false, ⟨5, 0, 0⟩, region0⟩ 5 (.ok (.normal, none)) rfl).1
      (by decide),
   (C8_applied_index_guard ⟨false, ⟨5, 0, 0⟩, region0⟩ 6 (.ok (.normal, none)) rfl).2
      (by decide)⟩

/-- The transfer-leader pre-check, characterised: the target is in the
progress map, no peer is receiving a snapshot, and the target's log lag
is within `TRANSFER_LEADER_ALLOW_LOG_LAG`. -/
theorem is_tranfer_leader_allowed_iff (v : RaftView) (target : Nat) :
    is_tranfer_leader_allowed v target = true ↔
      ∃ pr, v.find_progress target = some pr ∧
        (∀ p ∈ v.progress, p.2.state ≠ ProgressState.snapshot) ∧
        v.last_index - pr.matched ≤ TRANSFER_LEADER_ALLOW_LOG_LAG := by
  unfold is_tranfer_leader_allowed
  cases hf : v.find_progress target with
  | none => simp [hf]
  | some pr =>
    dsimp only
    by_cases hsnap :
        v.progress.any (fun p => decide (p.2.state = ProgressState.snapshot)) = true
    · rw [if_pos hsnap]
      simp only [Bool.false_eq_true, false_iff]
      rintro ⟨pr', hpr', hall, -⟩
      obtain ⟨p, hp, hps⟩ := List.any_eq_true.mp hsnap
      exact hall p hp (of_decide_eq_true hps)
    · rw [if_neg hsnap]
      have hns : ∀ p ∈ v.progress, p.2.state ≠ ProgressState.snapshot := by
        intro p hp hps
        exact hsnap (List.any_eq_true.mpr ⟨p, hp, decide_eq_true hps⟩)
      constructor
      · intro hle
        have hle' := of_decide_eq_true hle
        exact ⟨pr, rfl, hns, by omega⟩
      · rintro ⟨pr', hpr', -, hle⟩
        obtain rfl : pr' = pr := (Option.some.inj hpr').symm
        exact decide_eq_true (by omega)

/-- C6: a Transfer-leader command passing the duplicate-uuid and epoch
guards is never handed to Raft as a log entry; Raft `transfer_leader` is
invoked exactly when the target is in the progress map, no peer is in
Snapshot state, and `last_index − matched[target] ≤ 10`; and in both the
allowed and the refused case the callback is answered immediately with a
TransferLeader success response. -/
theorem C6_transfer_leader_propose (pending : List Nat) (uuid : Nat)
    (from_epoch : Option RegionEpoch) (latest : RegionEpoch)
    (view : RaftView) (target : Nat)
    (hdup : uuid ∉ pending)
    (hep : check_epoch_transfer from_epoch latest = true) :
    (propose pending uuid from_epoch latest view (.transferLeader target)).proposed = [] ∧
    (propose pending uuid from_epoch latest view (.transferLeader target)).resp =
      .transferLeaderResp ∧
    ((propose pending uuid from_epoch latest view (.transferLeader target)).transferred =
        some target ↔
      ∃ pr, view.find_progress target = some pr ∧
        (∀ p ∈ view.progress, p.2.state ≠ ProgressState.snapshot) ∧
        view.last_index - pr.matched ≤ TRANSFER_LEADER_ALLOW_LOG_LAG) := by
  unfold propose
  rw [if_neg hdup]
  simp only [hep, Bool.not_true, Bool.false_eq_true, if_false]
  by_cases hallow : is_tranfer_leader_allowed view target = true
  · rw [if_pos hallow]
    exact ⟨rfl, rfl,
      iff_of_true rfl ((is_tranfer_leader_allowed_iff view target).mp hallow)⟩
  · rw [if_neg hallow]
    refine ⟨rfl, rfl, ?_⟩
    constructor
    · intro h; cases h
    · intro hex
      exact absurd ((is_tranfer_leader_allowed_iff view target).mpr hex) hallow

/-- C6 witness: target 2 matched at 5 with last index 7 (lag 2 ≤ 10) is
allowed; the command is not replicated and the response is immediate. -/
theorem C6_transfer_leader_propose_witness :
    (propose [] 1 (some ⟨1, 1⟩) ⟨1, 1⟩ ⟨[(2, ⟨5, .replicate⟩)], 7⟩
        (.transferLeader 2)).proposed = [] ∧
    (propose [] 1 (some ⟨1, 1⟩) ⟨1, 1⟩ ⟨[(2, ⟨5, .replicate⟩)], 7⟩
        (.transferLeader 2)).transferred = some 2 :=
  ⟨(C6_transfer_leader_propose [] 1 (some ⟨1, 1⟩) ⟨1, 1⟩
      ⟨[(2, ⟨5, .replicate⟩)], 7⟩ 2 (by decide) (by decide)).1,
   ((C6_transfer_leader_propose [] 1 (some ⟨1, 1⟩) ⟨1, 1⟩
      ⟨[(2, ⟨5, .replicate⟩)], 7⟩ 2 (by decide) (by decide)).2.2).mpr
     ⟨⟨5, .replicate⟩, by decide, by decide, by decide⟩⟩

theorem zip_renumber_map_id :
    ∀ (ps : List PeerMeta) (ids : List Nat), ids.length = ps.length →
    ((ps.zip ids).map (fun pi => { pi.1 with id := pi.2 })).map PeerMeta.id = ids := by
  intro ps
  induction ps with
  | nil =>
    intro ids h
    cases ids with
    | nil => rfl
    | cons i is => simp at h
  | cons p ps ih =>
    intro ids h
    cases ids with
    | nil => simp at h
    | cons i is =>
      simp only [List.zip_cons_cons, List.map_cons]
      rw [ih is (by simpa using h)]

theorem zip_renumber_map_store :
    ∀ (ps : List PeerMeta) (ids : List Nat), ids.length = ps.length →
    ((ps.zip ids).map (fun pi => { pi.1 with id := pi.2 })).map PeerMeta.store_id =
      ps.map PeerMeta.store_id := by
  intro ps
  induction ps with
  | nil => intro ids _; cases ids <;> rfl
  | cons p ps ih =>
    intro ids h
    cases ids with
    | nil => simp at h
    | cons i is =>
      simp only [List.zip_cons_cons, List.map_cons]
      rw [ih is (by simpa using h)]

/-- C7: `Peer::exec_split` fails when the split key is at or below the
start key, when it lies outside the region, or when the new peer id
count differs from the region's peer count; on success it yields
left `[start, split_key)` keeping the original id, right
`[split_key, end)` under `new_region_id` with peers renumbered by
`new_peer_ids`, both epoch versions incremented, and stages both region
states plus the right region's initial Raft state in one batch. -/
theorem C7_exec_split (region : Region) (req : SplitRequest) :
    (bytesLe req.split_key region.start_key = true →
      ∃ e, exec_split region req = .error e) ∧
    (check_key_in_region req.split_key region = false →
      ∃ e, exec_split region req = .error e) ∧
    (req.new_peer_ids.length ≠ region.peers.length →
      ∃ e, exec_split region req = .error e) ∧
    (req.has_split_key = true →
     bytesLe req.split_key region.start_key = false →
     check_key_in_region req.split_key region = true →
     req.new_peer_ids.length = region.peers.length →
     ∃ left right, exec_split region req =
        .ok (left, right,
          [.regionState left.id left, .regionState right.id right,
           .initialRaftState right.id]) ∧
       left.id = region.id ∧
       left.start_key = region.start_key ∧
       left.end_key = req.split_key ∧
       left.peers = region.peers ∧
       left.epoch.version = region.epoch.version + 1 ∧
       left.epoch.conf_ver = region.epoch.conf_ver ∧
       right.id = req.new_region_id ∧
       right.start_key = req.split_key ∧
       right.end_key = region.end_key ∧
       right.epoch = left.epoch ∧
       right.peers.map PeerMeta.id = req.new_peer_ids ∧
       right.peers.map PeerMeta.store_id = region.peers.map PeerMeta.store_id) := by
  refine ⟨?_, ?_, ?_, ?_⟩
  · intro h
    by_cases hk : req.has_split_key = true
    · exact ⟨.boxErr "invalid split request", by simp [exec_split, hk, h]⟩
    · exact ⟨.boxErr "missing split key",
        by simp [exec_split, Bool.eq_false_iff.mpr hk]⟩
  · intro h
    by_cases hk : req.has_split_key = true
    · by_cases hle : bytesLe req.split_key region.start_key = true
      · exact ⟨.boxErr "invalid split request", by simp [exec_split, hk, hle]⟩
      · exact ⟨.keyNotInRegion,
          by simp [exec_split, hk, Bool.eq_false_iff.mpr hle, h]⟩
    · exact ⟨.boxErr "missing split key",
        by simp [exec_split, Bool.eq_false_iff.mpr hk]⟩
  · intro h
    by_cases hk : req.has_split_key = true
    · by_cases hle : bytesLe req.split_key region.start_key = true
      · exact ⟨.boxErr "invalid split request", by simp [exec_split, hk, hle]⟩
      · by_cases hin : check_key_in_region req.split_key region = true
        · exact ⟨.boxErr "invalid new peer id count",
            by simp [exec_split, hk, Bool.eq_false_iff.mpr hle, hin, h]⟩
        · exact ⟨.keyNotInRegion,
            by simp [exec_split, hk, Bool.eq_false_iff.mpr hle,
              Bool.eq_false_iff.mpr hin]⟩
    · exact ⟨.boxErr "missing split key",
        by simp [exec_split, Bool.eq_false_iff.mpr hk]⟩
  · intro hk hle hin hlen
    refine ⟨{ region with
                end_key := req.split_key
                epoch := ⟨region.epoch.version + 1, region.epoch.conf_ver⟩ },
            { id := req.new_region_id
              start_key := req.split_key
              end_key := region.end_key
              peers := (region.peers.zip req.new_peer_ids).map
                (fun pi => { pi.1 with id := pi.2 })
              epoch := ⟨region.epoch.version + 1, region.epoch.conf_ver⟩ },
            ?_, rfl, rfl, rfl, rfl, rfl, rfl, rfl, rfl, rfl, rfl,
            zip_renumber_map_id region.peers req.new_peer_ids hlen,
            zip_renumber_map_store region.peers req.new_peer_ids hlen⟩
    simp [exec_split, hk, hle, hin, hlen]

/-- C7 witness: splitting `region0 = [ [], [200] )` at key `[100]` with
two new peer ids succeeds with the regions and staged writes the claim
describes. -/
theorem C7_exec_split_witness :
    ∃ left right, exec_split region0 ⟨true, [100], 9, [10, 11]⟩ =
        .ok (left, right,
          [.regionState left.id left, .regionState right.id right,
           .initialRaftState right.id]) ∧
      left.id = region0.id ∧
      left.start_key = region0.start_key ∧
      left.end_key = [100] ∧
      left.peers = region0.peers ∧
      left.epoch.version = region0.epoch.version + 1 ∧
      left.epoch.conf_ver = region0.epoch.conf_ver ∧
      right.id = 9 ∧
      right.start_key = [100] ∧
      right.end_key = region0.end_key ∧
      right.epoch = left.epoch ∧
      right.peers.map PeerMeta.id = [10, 11] ∧
      right.peers.map PeerMeta.store_id = region0.peers.map PeerMeta.store_id :=
  (C7_exec_split region0 ⟨true, [100], 9, [10, 11]⟩).2.2.2
    rfl (by decide) (by decide) (by decide)

/-- The scan path's resolver equals the reference chain walk, projected
to the selected item's `start_ts`. -/
theorem get_version_chain_eq_first_visible (s : EngineState) (k : Key) (ts : Nat) :
    ∀ (fuel : Nat) (m : Meta),
      get_version_chain s k ts fuel m =
        (first_visible s k ts fuel m).map (Option.map MetaItem.start_ts) := by
  intro fuel
  induction fuel with
  | zero =>
    intro m
    unfold get_version_chain first_visible
    cases hf : m.iter_items.find? (fun it => decide (it.commit_ts ≤ ts)) with
    | some it => simp [hf, Except.map]
    | none =>
      cases hn : m.next_index with
      | none => simp [hf, hn, Except.map]
      | some idx => simp [hf, hn, Except.map]
  | succ n ih =>
    intro m
    unfold get_version_chain first_visible
    cases hf : m.iter_items.find? (fun it => decide (it.commit_ts ≤ ts)) with
    | some it => simp [hf, Except.map]
    | none =>
      cases hn : m.next_index with
      | none => simp [hf, hn, Except.map]
      | some idx =>
        cases hl : load_meta s k idx with
        | error e => simp [hf, hn, hl, Except.map]
        | ok m' => simp [hf, hn, hl, ih m']

/-- The point-get path's resolver equals the reference chain walk,
followed by the engine lookup at the selected data key. -/
theorem get_impl_eq_first_visible (s : EngineState) (k : Key) (ts : Nat) :
    ∀ (fuel : Nat) (m : Meta),
      get_impl s k ts fuel m =
        (first_visible s k ts fuel m).map
          (fun o => o.bind (fun it => s.defaultCF k it.start_ts)) := by
  intro fuel
  induction fuel with
  | zero =>
    intro m
    unfold get_impl first_visible
    cases hf : m.iter_items.find? (fun it => decide (it.commit_ts ≤ ts)) with
    | some it => simp [hf, Except.map]
    | none =>
      cases hn : m.next_index with
      | none => simp [hf, hn, Except.map]
      | some idx => simp [hf, hn, Except.map]
  | succ n ih =>
    intro m
    unfold get_impl first_visible
    cases hf : m.iter_items.find? (fun it => decide (it.commit_ts ≤ ts)) with
    | some it => simp [hf, Except.map]
    | none =>
      cases hn : m.next_index with
      | none => simp [hf, hn, Except.map]
      | some idx =>
        cases hl : load_meta s k idx with
        | error e => simp [hf, hn, hl, Except.map]
        | ok m' => simp [hf, hn, hl, ih m']

/-- C10 (amended): for every state, key, timestamp, fuel and loaded head
page, `MvccCursor::get_version` returns `some item.start_ts` for exactly
the `MetaItem` the reference chain walk selects (the first item in chain
order with `commit_ts ≤ ts`) — the item `MvccSnapshot::get_impl`
resolves through — and returns `none` exactly when that walk selects no
item; `get_impl` returns the engine value stored at
`raw_key ⊕ item.start_ts`, which may itself be absent for a deleted
version (so `get_impl = Ok(None)` does not imply `get_version = None`,
see the counterexample). -/
theorem C10_resolvers_agree (s : EngineState) (k : Key) (ts : Nat)
    (fuel : Nat) (m : Meta) :
    get_version_chain s k ts fuel m =
      (first_visible s k ts fuel m).map (Option.map MetaItem.start_ts) ∧
    get_impl s k ts fuel m =
      (first_visible s k ts fuel m).map
        (fun o => o.bind (fun it => s.defaultCF k it.start_ts)) ∧
    get_version s k ts fuel =
      (match load_meta s k FIRST_META_INDEX with
       | .error e => .error e
       | .ok m0 =>
         (first_visible s k ts fuel m0).map (Option.map MetaItem.start_ts)) := by
  refine ⟨get_version_chain_eq_first_visible s k ts fuel m,
          get_impl_eq_first_visible s k ts fuel m, ?_⟩
  unfold get_version
  cases hl : load_meta s k FIRST_META_INDEX with
  | error e => rfl
  | ok m0 => exact get_version_chain_eq_first_visible s k ts fuel m0

/-- C10 counterexample: on a chain holding the single committed item
`{start_ts = 5, commit_ts = 10}` whose data key is absent (a committed
delete), `get_impl` returns `Ok(None)` while `get_version` returns
`Some 5` — refuting "get_version returns None exactly when get_impl
returns None". -/
theorem C10_deleted_version_counterexample :
    get_impl EngineState.empty xK 10 0 onePage = .ok none ∧
    get_version_chain EngineState.empty xK 10 0 onePage = .ok (some 5) :=
  ⟨rfl, rfl⟩

/-- C2: `MvccTxn::prewrite` fails with `WriteConflict` iff the newest
item of the key's first meta page has `commit_ts ≥ start_ts`; otherwise
a lock with a different `start_ts` fails with `KeyIsLocked`; otherwise
it succeeds — also when a lock with the same `start_ts` is already
present (idempotence) — staging the lock record and, for Put, the value
write at `key ⊕ start_ts`. -/
theorem C2_prewrite_contract (s : EngineState) (start_ts : Nat)
    (mutation : Mutation) (primary : Bytes) (m : Meta)
    (hm : load_meta s mutation.key FIRST_META_INDEX = .ok m) :
    (prewrite s start_ts mutation primary = .error .writeConflict ↔
      ∃ latest, m.iter_items.head? = some latest ∧ start_ts ≤ latest.commit_ts) ∧
    ((¬ ∃ latest, m.iter_items.head? = some latest ∧ start_ts ≤ latest.commit_ts) →
      ∀ lock, load_lock s mutation.key = some lock → lock.start_ts ≠ start_ts →
        prewrite s start_ts mutation primary =
          .error (.keyIsLocked mutation.key lock.primary lock.start_ts)) ∧
    ((¬ ∃ latest, m.iter_items.head? = some latest ∧ start_ts ≤ latest.commit_ts) →
      (load_lock s mutation.key = none ∨
        ∃ lock, load_lock s mutation.key = some lock ∧ lock.start_ts = start_ts) →
      prewrite s start_ts mutation primary =
        .ok (prewrite_staged mutation.key start_ts primary mutation)) := by
  simp only [prewrite, hm]
  cases hh : m.iter_items.head? with
  | some latest =>
    by_cases hc : start_ts ≤ latest.commit_ts
    · rw [if_pos (by simpa using hc)]
      exact ⟨iff_of_true rfl ⟨latest, rfl, hc⟩,
        fun hn => absurd ⟨latest, rfl, hc⟩ hn,
        fun hn => absurd ⟨latest, rfl, hc⟩ hn⟩
    · rw [if_neg (by simpa using hc)]
      have hnc : ¬ ∃ latest', some latest = some latest' ∧
          start_ts ≤ latest'.commit_ts := by
        rintro ⟨l', hl', hle⟩
        exact hc (by cases Option.some.inj hl'; exact hle)
      cases hl : load_lock s mutation.key with
      | none =>
        refine ⟨iff_of_false (by simp) hnc, ?_, fun _ _ => rfl⟩
        intro _ lock hlock
        cases hlock
      | some lock =>
        dsimp only
        by_cases hne : lock.start_ts = start_ts
        · rw [if_neg (by simpa using hne)]
          refine ⟨iff_of_false (by simp) hnc, ?_, fun _ _ => rfl⟩
          intro _ lock' hlock' hne'
          cases Option.some.inj hlock'
          exact absurd hne hne'
        · rw [if_pos hne]
          refine ⟨iff_of_false (by simp) hnc, ?_, ?_⟩
          · intro _ lock' hlock' _
            cases Option.some.inj hlock'
            rfl
          · rintro _ (h | ⟨lock', hlock', heq⟩)
            · cases h
            · cases Option.some.inj hlock'
              exact absurd heq hne
  | none =>
    rw [if_neg (by simp)]
    have hnc : ¬ ∃ latest', (none : Option MetaItem) = some latest' ∧
        start_ts ≤ latest'.commit_ts := by
      rintro ⟨l', hl', -⟩
      cases hl'
    cases hl : load_lock s mutation.key with
    | none =>
      refine ⟨iff_of_false (by simp) hnc, ?_, fun _ _ => rfl⟩
      intro _ lock hlock
      cases hlock
    | some lock =>
      dsimp only
      by_cases hne : lock.start_ts = start_ts
      · rw [if_neg (by simpa using hne)]
        refine ⟨iff_of_false (by simp) hnc, ?_, fun _ _ => rfl⟩
        intro _ lock' hlock' hne'
        cases Option.some.inj hlock'
        exact absurd hne hne'
      · rw [if_pos hne]
        refine ⟨iff_of_false (by simp) hnc, ?_, ?_⟩
        · intro _ lock' hlock' _
          cases Option.some.inj hlock'
          rfl
        · rintro _ (h | ⟨lock', hlock', heq⟩)
          · cases h
          · cases Option.some.inj hlock'
            exact absurd heq hne

/-- C2 witness: prewriting `Put("x","v1")` at `start_ts = 5` while our
own ReadWrite lock at 5 is present succeeds (idempotence), staging the
lock record and the value write. -/
theorem C2_prewrite_contract_witness :
    prewrite rwLockState 5 (.put xK v1B) xK =
      .ok [Modify.putLock xK ⟨.readWrite, xK, 5⟩,
           Modify.putDefault xK 5 (.value v1B)] :=
  (C2_prewrite_contract rwLockState 5 (.put xK v1B) xK Meta.new rfl).2.2
    (by rintro ⟨l, hl, -⟩; cases hl)
    (Or.inr ⟨⟨.readWrite, xK, 5⟩, rfl, rfl⟩)

/-- When no mutation of the batch hits an aborting error, the loop of
`TxnStore::prewrite` records one result per mutation and concatenates
the writes of the successful ones. -/
theorem store_prewrite_loop_clean (s : EngineState) (ts : Nat) (primary : Bytes) :
    ∀ (muts : List Mutation) (results : List (Except MvccError Unit))
      (writes : List Modify),
      (∀ mu ∈ muts, ∀ e, prewrite s ts mu primary = .error e → fatal_err e = false) →
      store_prewrite_loop s ts primary muts results writes =
        .ok (results ++ muts.map (prewrite_result s ts primary),
             writes ++ (muts.map (prewrite_writes s ts primary)).flatten) := by
  intro muts
  induction muts with
  | nil => intro results writes _; simp [store_prewrite_loop]
  | cons mu rest ih =>
    intro results writes hcl
    unfold store_prewrite_loop
    cases hp : prewrite s ts mu primary with
    | ok w =>
      dsimp only
      rw [ih _ _ (fun m hm => hcl m (List.mem_cons_of_mem _ hm))]
      simp [prewrite_result, prewrite_writes, hp, Except.map]
    | error e =>
      have hflag := hcl mu (List.mem_cons_self _ _) e hp
      cases e with
      | keyIsLocked a b c =>
        dsimp only
        rw [ih _ _ (fun m hm => hcl m (List.mem_cons_of_mem _ hm))]
        simp [prewrite_result, prewrite_writes, hp, Except.map]
      | writeConflict => simp [fatal_err] at hflag
      | txnLockNotFound => simp [fatal_err] at hflag
      | alreadyCommitted ts' => simp [fatal_err] at hflag
      | badMeta => simp [fatal_err] at hflag
      | chainTooDeep => simp [fatal_err] at hflag

/-- The first aborting error of the batch stops the loop with that
error. -/
theorem store_prewrite_loop_fatal (s : EngineState) (ts : Nat) (primary : Bytes) :
    ∀ (pre : List Mutation) (mu : Mutation) (post : List Mutation)
      (e : MvccError) (results : List (Except MvccError Unit))
      (writes : List Modify),
      (∀ mu' ∈ pre, ∀ e', prewrite s ts mu' primary = .error e' → fatal_err e' = false) →
      prewrite s ts mu primary = .error e → fatal_err e = true →
      store_prewrite_loop s ts primary (pre ++ mu :: post) results writes = .error e := by
  intro pre
  induction pre with
  | nil =>
    intro mu post e results writes _ hp hf
    unfold store_prewrite_loop
    rw [List.nil_append] at *
    cases e with
    | keyIsLocked a b c => simp [fatal_err] at hf
    | writeConflict => simp [hp]
    | txnLockNotFound => simp [hp]
    | alreadyCommitted ts' => simp [hp]
    | badMeta => simp [hp]
    | chainTooDeep => simp [hp]
  | cons mu' pre ih =>
    intro mu post e results writes hcl hp hf
    rw [List.cons_append]
    unfold store_prewrite_loop
    cases hp' : prewrite s ts mu' primary with
    | ok w => exact ih mu post e _ _ (fun m hm => hcl m (List.mem_cons_of_mem _ hm)) hp hf
    | error e' =>
      have hflag := hcl mu' (List.mem_cons_self _ _) e' hp'
      cases e' with
      | keyIsLocked a b c =>
        exact ih mu post e _ _ (fun m hm => hcl m (List.mem_cons_of_mem _ hm)) hp hf
      | writeConflict => simp [fatal_err] at hflag
      | txnLockNotFound => simp [fatal_err] at hflag
      | alreadyCommitted ts' => simp [fatal_err] at hflag
      | badMeta => simp [fatal_err] at hflag
      | chainTooDeep => simp [fatal_err] at hflag

/-- C9: `TxnStore::prewrite` over a batch reports `KeyIsLocked` per
mutation — the failure is pushed into the result vector and the rest of
the batch is still processed, after which the staged writes of the
successful mutations are applied to the engine — whereas the first
aborting MVCC error (e.g. `WriteConflict`) fails the whole call before
any engine write, leaving the engine unchanged. -/
theorem C9_store_prewrite_batch (s : EngineState) (muts : List Mutation)
    (primary : Bytes) (ts : Nat) :
    ((∀ mu ∈ muts, ∀ e, prewrite s ts mu primary = .error e → fatal_err e = false) →
      store_prewrite s muts primary ts =
        (.ok (muts.map (prewrite_result s ts primary)),
         s.applyAll ((muts.map (prewrite_writes s ts primary)).flatten))) ∧
    (∀ pre mu post e, muts = pre ++ mu :: post →
      (∀ mu' ∈ pre, ∀ e', prewrite s ts mu' primary = .error e' → fatal_err e' = false) →
      prewrite s ts mu primary = .error e → fatal_err e = true →
      store_prewrite s muts primary ts = (.error e, s)) := by
  constructor
  · intro hcl
    unfold store_prewrite
    rw [store_prewrite_loop_clean s ts primary muts [] [] hcl]
    simp
  · intro pre mu post e hdecomp hclean hp hf
    unfold store_prewrite
    subst hdecomp
    rw [store_prewrite_loop_fatal s ts primary pre mu post e [] [] hclean hp hf]

/-- C9 witness: a batch `[Put("y"), Put("x")]` against an engine whose
key `"x"` holds a foreign ReadWrite lock at ts 5, prewritten at ts 7:
the second mutation's `KeyIsLocked` is recorded in the result vector
while the first mutation's writes are still applied. -/
theorem C9_store_prewrite_batch_witness :
    store_prewrite rwLockState [.put [121] [1], .put xK [2]] xK 7 =
      (.ok [.ok (), .error (.keyIsLocked xK xK 5)],
       rwLockState.applyAll
         [.putLock [121] ⟨.readWrite, xK, 7⟩,
          .putDefault [121] 7 (.value [1])]) :=
  (C9_store_prewrite_batch rwLockState [.put [121] [1], .put xK [2]] xK 7).1
    (by
      intro mu hmu e he
      fin_cases hmu
      · rw [show prewrite rwLockState 7 (.put [121] [1]) xK =
              .ok (prewrite_staged [121] 7 xK (.put [121] [1])) from rfl] at he
        cases he
      · rw [show prewrite rwLockState 7 (.put xK [2]) xK =
              .error (.keyIsLocked xK xK 5) from rfl] at he
        cases he
        rfl)

/-- C1: a snapshot read at `ts` fails with `KeyIsLocked` whenever the
key carries a lock with `start_ts ≤ ts`; otherwise it walks the meta
chain page by page and returns the engine value at
`raw_key ⊕ item.start_ts` for the first item with `commit_ts ≤ ts`, or
not-found when no such item exists; in particular after
`put("x","v1")` with start ts 5 and commit ts 10, `get("x", 9)` is
not-found and `get("x", ts)` is `"v1"` for every `ts ≥ 10`. -/
theorem C1_snapshot_read :
    (∀ (s : EngineState) (ts : Nat) (k : Key) (fuel : Nat) (lock : MetaLock),
      load_lock s k = some lock → lock.start_ts ≤ ts →
      snapshot_get s ts k fuel = .error (.keyIsLocked k lock.primary lock.start_ts)) ∧
    (∀ (s : EngineState) (ts : Nat) (k : Key) (fuel : Nat) (m : Meta),
      (∀ lock, load_lock s k = some lock → ts < lock.start_ts) →
      load_meta s k FIRST_META_INDEX = .ok m →
      snapshot_get s ts k fuel =
        (first_visible s k ts fuel m).map
          (fun o => o.bind (fun it => s.defaultCF k it.start_ts))) ∧
    (putXstate = .ok putXs2) ∧
    (snapshot_get putXs2 9 xK 0 = .ok none) ∧
    (∀ ts, 10 ≤ ts → snapshot_get putXs2 ts xK 0 = .ok (some (.value v1B))) := by
  refine ⟨?_, ?_, rfl, rfl, ?_⟩
  · intro s ts k fuel lock hl hle
    simp only [snapshot_get, hl]
    rw [if_pos hle]
  · intro s ts k fuel m hnolock hm
    rcases hl : load_lock s k with _ | lock
    · simp only [snapshot_get, hl, hm]
      exact get_impl_eq_first_visible s k ts fuel m
    · simp only [snapshot_get, hl, hm]
      rw [if_neg (not_le.mpr (hnolock lock hl))]
      exact get_impl_eq_first_visible s k ts fuel m
  · intro ts hts
    have hd : decide ((10 : Nat) ≤ ts) = true := decide_eq_true hts
    have hl : load_lock putXs2 xK = none := rfl
    have hm : load_meta putXs2 xK FIRST_META_INDEX =
        .ok ⟨[⟨5, 10⟩], none⟩ := rfl
    simp only [snapshot_get, hl, hm]
    unfold get_impl
    simp only [Meta.iter_items, List.find?, hd, cond_true]
    rfl

/-- C1 witness: a read at ts 7 against a lock at start ts 5 fails with
`KeyIsLocked`, and a read at ts 13 after `put("x","v1",5,10)` sees
`"v1"`. -/
theorem C1_snapshot_read_witness :
    snapshot_get rwLockState 7 xK 0 = .error (.keyIsLocked xK xK 5) ∧
    snapshot_get putXs2 13 xK 0 = .ok (some (.value v1B)) :=
  ⟨C1_snapshot_read.1 rwLockState 7 xK 0 ⟨.readWrite, xK, 5⟩ rfl (by decide),
   C1_snapshot_read.2.2.2.2 13 (by decide)⟩


/-- A successful prewrite stages exactly the lock record and, for Put,
the value write. -/
theorem prewrite_ok_shape (s : EngineState) (ts : Nat) (mutation : Mutation)
    (primary : Bytes) (ws : List Modify)
    (h : prewrite s ts mutation primary = .ok ws) :
    ws = prewrite_staged mutation.key ts primary mutation := by
  rcases hm : load_meta s mutation.key FIRST_META_INDEX with e | m0 <;>
    simp only [prewrite, hm] at h
  · cases h
  · split at h
    · cases h
    · rcases hl : load_lock s mutation.key with _ | lock <;> simp only [hl] at h
      · exact (Except.ok.inj h).symm
      · split at h
        · cases h
        · exact (Except.ok.inj h).symm

/-- A successful prewrite implies the head meta page parsed. -/
theorem prewrite_ok_load_meta (s : EngineState) (ts : Nat) (mutation : Mutation)
    (primary : Bytes) (ws : List Modify)
    (h : prewrite s ts mutation primary = .ok ws) :
    ∃ m0, load_meta s mutation.key FIRST_META_INDEX = .ok m0 := by
  rcases hm : load_meta s mutation.key FIRST_META_INDEX with e | m0
  · simp only [prewrite, hm] at h; cases h
  · exact ⟨m0, rfl⟩

/-- A commit that finds its own ReadWrite lock pushes the new item and
deletes the lock. -/
theorem commit_matched_rw (s : EngineState) (k : Key)
    (start_ts commit_ts fuel : Nat) (m0 : Meta) (lock : MetaLock)
    (hm : load_meta s k FIRST_META_INDEX = .ok m0)
    (hl : load_lock s k = some lock)
    (hlts : lock.start_ts = start_ts)
    (hlty : lock.lock_type = .readWrite) :
    commit s start_ts k commit_ts fuel =
      .ok ([Modify.delLock k] ++
        write_meta k (m0.push_item ⟨start_ts, commit_ts⟩)) := by
  simp only [commit, hm, commit_impl, hl, if_pos hlts, hlty]
  simp

/-- After `[delete lock] ++ write_meta` the head page stored at the key
is the post-split page and the lock is gone. -/
theorem commit_writes_state (s : EngineState) (k : Key) (meta1 : Meta) :
    (s.applyAll ([Modify.delLock k] ++ write_meta k meta1)).defaultCF k
        FIRST_META_INDEX = some (.page (meta1.split).2) ∧
    (s.applyAll ([Modify.delLock k] ++ write_meta k meta1)).lockCF k = none := by
  constructor
  · rw [List.cons_append, List.nil_append, applyAll_cons]
    exact write_meta_defaultCF_first _ _ _
  · rw [List.cons_append, List.nil_append, applyAll_cons, write_meta_lockCF]
    simp

/-- The head page after a push-then-split starts with the pushed item. -/
theorem push_split_head (m0 : Meta) (it : MetaItem) :
    ∃ rest, ((m0.push_item it).split).2.items = it :: rest := by
  have h := split_snd_head? (m0.push_item it)
  cases hH : ((m0.push_item it).split).2.items with
  | nil => rw [hH] at h; cases h
  | cons a l =>
    rw [hH] at h
    exact ⟨l, by rw [Option.some.inj h]⟩

/-- C3 (amended to ReadWrite mutations, i.e. Put and Delete): once a
prewrite has been applied, `prewrite; commit(ts); commit(ts)` — each
step's staged writes applied before the next — has the effect of a
single `prewrite; commit(ts)`: the second commit succeeds and changes
no state, because it finds no lock and verifies the transaction's
commit ts in the meta chain.  (For a ReadOnly `Lock` mutation the second
commit instead fails with `TxnLockNotFound`, see the counterexample.) -/
theorem C3_commit_idempotent (s0 : EngineState) (start_ts commit_ts : Nat)
    (mutation : Mutation) (primary : Bytes) (fuel : Nat) (s1 : EngineState)
    (hrw : meta_lock_type mutation = .readWrite)
    (hts : 0 < start_ts)
    (hpre : prewriteRun s0 start_ts mutation primary = .ok s1) :
    ∃ s2, commitRun s1 start_ts mutation.key commit_ts fuel = .ok s2 ∧
      commitRun s2 start_ts mutation.key commit_ts fuel = .ok s2 := by
  obtain ⟨ws, hp, hs1⟩ :
      ∃ ws, prewrite s0 start_ts mutation primary = .ok ws ∧
        s1 = s0.applyAll ws := by
    unfold prewriteRun at hpre
    cases hp : prewrite s0 start_ts mutation primary with
    | error e => rw [hp] at hpre; cases hpre
    | ok ws =>
      rw [hp] at hpre
      exact ⟨ws, rfl, (Except.ok.inj hpre).symm⟩
  obtain ⟨m0, hm0⟩ := prewrite_ok_load_meta s0 start_ts mutation primary ws hp
  have hws := prewrite_ok_shape s0 start_ts mutation primary ws hp
  subst hws
  subst hs1
  -- the lock staged by prewrite is visible afterwards
  have hlock1 : (s0.applyAll (prewrite_staged mutation.key start_ts primary
      mutation)).lockCF mutation.key =
      some ⟨.readWrite, primary, start_ts⟩ := by
    cases mutation with
    | put k' v => simp [prewrite_staged, meta_lock_type]
    | del k' => simp [prewrite_staged, meta_lock_type]
    | lock k' => simp [meta_lock_type] at hrw
  -- the head meta page is untouched by the staged writes
  have hmeta1 : load_meta (s0.applyAll (prewrite_staged mutation.key start_ts
      primary mutation)) mutation.key FIRST_META_INDEX = .ok m0 := by
    have hd : (s0.applyAll (prewrite_staged mutation.key start_ts primary
        mutation)).defaultCF mutation.key FIRST_META_INDEX =
        s0.defaultCF mutation.key FIRST_META_INDEX := by
      cases mutation with
      | put k' v =>
        simp only [prewrite_staged, applyAll_cons, applyAll_nil,
          defaultCF_putLock, defaultCF_putDefault]
        rw [if_neg]
        rintro ⟨-, h0⟩
        simp [FIRST_META_INDEX] at h0
        omega
      | del k' => simp [prewrite_staged]
      | lock k' => simp [meta_lock_type] at hrw
    unfold load_meta at hm0 ⊢
    rw [hd]
    exact hm0
  -- first commit
  have hcommit1 := commit_matched_rw _ mutation.key start_ts commit_ts fuel m0
    ⟨.readWrite, primary, start_ts⟩ hmeta1 hlock1 rfl rfl
  refine ⟨_, by unfold commitRun; rw [hcommit1]; rfl, ?_⟩
  -- state after the first commit
  obtain ⟨hg1, hg2⟩ := commit_writes_state
    (s0.applyAll (prewrite_staged mutation.key start_ts primary mutation))
    mutation.key (m0.push_item ⟨start_ts, commit_ts⟩)
  obtain ⟨rest, hHitems⟩ := push_split_head m0 ⟨start_ts, commit_ts⟩
  have hmeta2 : load_meta ((s0.applyAll (prewrite_staged mutation.key start_ts
      primary mutation)).applyAll ([Modify.delLock mutation.key] ++
        write_meta mutation.key (m0.push_item ⟨start_ts, commit_ts⟩)))
      mutation.key FIRST_META_INDEX =
      .ok ((m0.push_item ⟨start_ts, commit_ts⟩).split).2 := by
    unfold load_meta
    rw [hg1]
  have htxn := get_txn_commit_ts_head
    ((s0.applyAll (prewrite_staged mutation.key start_ts primary
        mutation)).applyAll ([Modify.delLock mutation.key] ++
      write_meta mutation.key (m0.push_item ⟨start_ts, commit_ts⟩)))
    mutation.key start_ts commit_ts fuel
    ((m0.push_item ⟨start_ts, commit_ts⟩).split).2 rest hHitems
  have hcommit2 : commit ((s0.applyAll (prewrite_staged mutation.key start_ts
      primary mutation)).applyAll ([Modify.delLock mutation.key] ++
        write_meta mutation.key (m0.push_item ⟨start_ts, commit_ts⟩)))
      start_ts mutation.key commit_ts fuel =
      .ok [Modify.putDefault mutation.key FIRST_META_INDEX
        (.page ((m0.push_item ⟨start_ts, commit_ts⟩).split).2)] := by
    simp only [commit, hmeta2, commit_impl, load_lock, hg2, htxn]
    rw [show write_meta mutation.key
        ((m0.push_item ⟨start_ts, commit_ts⟩).split).2 =
        [Modify.putDefault mutation.key FIRST_META_INDEX
          (.page ((m0.push_item ⟨start_ts, commit_ts⟩).split).2)] from by
      unfold write_meta
      rw [split_of_le (split_snd_len_le _)]]
    rfl
  unfold commitRun
  rw [hcommit2]
  simp only [Except.map]
  rw [applyAll_cons, applyAll_nil, applyPut_self _ _ _ _ hg1]

/-- C3 counterexample: for a ReadOnly `Lock("x")` mutation, the second
commit of the same transaction fails with `TxnLockNotFound` instead of
succeeding: a ReadOnly commit records nothing in the meta chain, so the
repeated commit finds neither lock nor meta item. -/
theorem C3_lock_mutation_counterexample :
    prewriteRun EngineState.empty 5 (.lock xK) xK = .ok lockS1 ∧
    commitRun lockS1 5 xK 10 0 = .ok lockS2 ∧
    errOf (commitRun lockS2 5 xK 10 0) = some .txnLockNotFound :=
  ⟨rfl, rfl, rfl⟩

/-- C3 witness: `put("x","v1")` prewritten at ts 5 commits at ts 10 and
the repeated commit is a no-op on the resulting state. -/
theorem C3_commit_idempotent_witness :
    ∃ s2, commitRun (EngineState.empty.applyAll
        (prewrite_staged xK 5 xK (.put xK v1B))) 5 xK 10 0 = .ok s2 ∧
      commitRun s2 5 xK 10 0 = .ok s2 :=
  C3_commit_idempotent EngineState.empty 5 10 (.put xK v1B) xK 0
    (EngineState.empty.applyAll (prewrite_staged xK 5 xK (.put xK v1B)))
    rfl (by decide) rfl

/-- The chain walk of `get_txn_commit_ts` only reads meta pages, so it
is unchanged between two states whose pages all load identically. -/
theorem get_txn_walk_congr (s0 s1 : EngineState) (k : Key) (ts : Nat)
    (hagree : ∀ i, load_meta s1 k i = load_meta s0 k i) :
    ∀ (fuel : Nat) (m : Meta),
      get_txn_commit_ts s1 k ts fuel m = get_txn_commit_ts s0 k ts fuel m := by
  intro fuel
  induction fuel with
  | zero =>
    intro m
    unfold get_txn_commit_ts
    cases hf : m.iter_items.find? (fun it => decide (it.start_ts ≤ ts)) with
    | some it => rfl
    | none =>
      cases hn : m.next_index with
      | none => rfl
      | some idx => rfl
  | succ n ih =>
    intro m
    unfold get_txn_commit_ts
    cases hf : m.iter_items.find? (fun it => decide (it.start_ts ≤ ts)) with
    | some it => rfl
    | none =>
      cases hn : m.next_index with
      | none => rfl
      | some idx =>
        dsimp only
        rw [hagree idx]
        cases hl : load_meta s0 k idx with
        | error e => rfl
        | ok m' => exact ih m'

/-- Blanking one slot of the default column family (what the rollback's
pending-value delete does) can only truncate the chain walk, so a walk
that resolved to "not committed" still does. -/
theorem get_txn_walk_none_stable (s0 s1 : EngineState) (k : Key) (ts j : Nat)
    (hj1 : load_meta s1 k j = .ok Meta.new)
    (hagree : ∀ i, i ≠ j → load_meta s1 k i = load_meta s0 k i) :
    ∀ (fuel : Nat) (m : Meta),
      get_txn_commit_ts s0 k ts fuel m = .ok none →
      get_txn_commit_ts s1 k ts fuel m = .ok none := by
  intro fuel
  induction fuel with
  | zero =>
    intro m h
    unfold get_txn_commit_ts at h ⊢
    cases hf : m.iter_items.find? (fun it => decide (it.start_ts ≤ ts)) with
    | some it => rw [hf] at h; exact h
    | none =>
      rw [hf] at h
      cases hn : m.next_index with
      | none => rw [hn] at h; try exact h
      | some idx => rw [hn] at h; exact Except.noConfusion h
  | succ n ih =>
    intro m h
    unfold get_txn_commit_ts at h ⊢
    cases hf : m.iter_items.find? (fun it => decide (it.start_ts ≤ ts)) with
    | some it => rw [hf] at h; exact h
    | none =>
      rw [hf] at h
      cases hn : m.next_index with
      | none => rw [hn] at h; try exact h
      | some idx =>
        rw [hn] at h
        dsimp only at h ⊢
        by_cases hij : idx = j
        · subst hij
          rw [hj1]
          exact get_txn_commit_ts_no_next s1 k ts n Meta.new rfl
            (by intro it hit; cases hit)
        · rw [hagree idx hij]
          cases hl : load_meta s0 k idx with
          | error e => rw [hl] at h; exact Except.noConfusion h
          | ok m' => rw [hl] at h; exact ih m' h

/-- Rewriting the head page with the content it already parses to leaves
every page load unchanged. -/
theorem load_meta_head_rewrite (s0 : EngineState) (k : Key) (m0 : Meta)
    (hm : load_meta s0 k FIRST_META_INDEX = .ok m0) :
    ∀ i, load_meta (s0.applyAll
        [Modify.putDefault k FIRST_META_INDEX (.page m0)]) k i =
      load_meta s0 k i := by
  intro i
  by_cases hif : i = FIRST_META_INDEX
  · subst hif
    rw [hm]
    unfold load_meta
    simp
  · unfold load_meta
    simp only [applyAll_cons, applyAll_nil, defaultCF_putDefault]
    rw [if_neg (by rintro ⟨-, h⟩; exact hif h)]

/-- The state a matched-lock rollback leaves: all pages except the one
at the deleted timestamp slot load as before, that slot is blank, the
head page is rewritten unchanged, and the lock is gone. -/
theorem rollback_matched_state (s0 : EngineState) (k : Key) (ts : Nat)
    (m0 : Meta)
    (hm : load_meta s0 k FIRST_META_INDEX = .ok m0) :
    (∀ i, i ≠ ts → load_meta (s0.applyAll
        [Modify.delDefault k ts, Modify.delLock k,
         Modify.putDefault k FIRST_META_INDEX (.page m0)]) k i =
      load_meta s0 k i) ∧
    (ts ≠ FIRST_META_INDEX → load_meta (s0.applyAll
        [Modify.delDefault k ts, Modify.delLock k,
         Modify.putDefault k FIRST_META_INDEX (.page m0)]) k ts =
      .ok Meta.new) ∧
    load_meta (s0.applyAll
        [Modify.delDefault k ts, Modify.delLock k,
         Modify.putDefault k FIRST_META_INDEX (.page m0)]) k
      FIRST_META_INDEX = .ok m0 ∧
    (s0.applyAll
        [Modify.delDefault k ts, Modify.delLock k,
         Modify.putDefault k FIRST_META_INDEX (.page m0)]).lockCF k = none := by
  refine ⟨?_, ?_, ?_, ?_⟩
  · intro i hit
    by_cases hif : i = FIRST_META_INDEX
    · subst hif
      rw [hm]
      unfold load_meta
      simp
    · unfold load_meta
      simp only [applyAll_cons, applyAll_nil, defaultCF_putDefault,
        defaultCF_delLock, defaultCF_delDefault]
      rw [if_neg (by rintro ⟨-, h⟩; exact hif h),
          if_neg (by rintro ⟨-, h⟩; exact hit h)]
  · intro hts
    unfold load_meta
    simp [hts]
  · unfold load_meta
    simp
  · simp

/-- A commit against a state whose head page parses, whose lock (if any)
belongs to another transaction, and whose chain does not know the
transaction, fails with `TxnLockNotFound`. -/
theorem commit_fails_when_rolled_back (s1 : EngineState) (k : Key)
    (start_ts commit_ts fuel2 : Nat) (m0 : Meta)
    (hm1 : load_meta s1 k FIRST_META_INDEX = .ok m0)
    (hl1 : ∀ lock, load_lock s1 k = some lock → lock.start_ts ≠ start_ts)
    (htx : get_txn_commit_ts s1 k start_ts fuel2 m0 = .ok none) :
    commitRun s1 start_ts k commit_ts fuel2 = .error .txnLockNotFound := by
  unfold commitRun
  rcases hl : load_lock s1 k with _ | lock
  · simp only [commit, hm1, commit_impl, hl, htx]
    rfl
  · simp only [commit, hm1, commit_impl, hl, if_neg (hl1 lock hl), htx]
    rfl

/-- C4 (amended): commit after a rollback of the same `start_ts` fails
with `TxnLockNotFound` — for arbitrary meta chains, overflow pages
included, given the invariants a rollback guarantees (the head page is
within the split bound and the chain nowhere records `start_ts`) — and
rollback after a commit that released a ReadWrite lock of the same
`start_ts` fails with `AlreadyCommitted` carrying the commit ts recorded
in the meta chain.  (After committing a ReadOnly `Lock` mutation nothing
is recorded, and a subsequent rollback succeeds as a no-op instead, see
the counterexample.) -/
theorem C4_commit_rollback_exclusion :
    (∀ (s0 : EngineState) (start_ts commit_ts : Nat) (k : Key)
       (fuel fuel2 : Nat) (m0 : Meta) (s1 : EngineState),
      load_meta s0 k FIRST_META_INDEX = .ok m0 →
      m0.items.length ≤ META_SPLIT_SIZE →
      get_txn_commit_ts s0 k start_ts fuel2 m0 = .ok none →
      rollbackRun s0 start_ts k fuel = .ok s1 →
      commitRun s1 start_ts k commit_ts fuel2 = .error .txnLockNotFound) ∧
    (∀ (s0 : EngineState) (start_ts commit_ts : Nat) (k : Key)
       (fuel fuel2 : Nat) (lock : MetaLock) (s1 : EngineState),
      load_lock s0 k = some lock →
      lock.start_ts = start_ts →
      lock.lock_type = .readWrite →
      commitRun s0 start_ts k commit_ts fuel = .ok s1 →
      rollbackRun s1 start_ts k fuel2 = .error (.alreadyCommitted commit_ts)) := by
  constructor
  · intro s0 start_ts commit_ts k fuel fuel2 m0 s1 hm hlen htx hrb
    have hwm : write_meta k m0 =
        [Modify.putDefault k FIRST_META_INDEX (.page m0)] := by
      unfold write_meta
      rw [split_of_le hlen]
    obtain ⟨ws, hrw', hs1⟩ :
        ∃ ws, rollback s0 start_ts k fuel = .ok ws ∧ s1 = s0.applyAll ws := by
      unfold rollbackRun at hrb
      cases hx : rollback s0 start_ts k fuel with
      | error e => rw [hx] at hrb; cases hrb
      | ok ws => rw [hx] at hrb; exact ⟨ws, rfl, (Except.ok.inj hrb).symm⟩
    subst hs1
    rcases hl0 : load_lock s0 k with _ | lock
    · -- no lock: the rollback itself verified the chain at its own fuel
      cases hgt : get_txn_commit_ts s0 k start_ts fuel m0 with
      | error e =>
        rw [show rollback s0 start_ts k fuel = .error e from by
          simp only [rollback, rollback_impl, hm, hl0, hgt]] at hrw'
        exact Except.noConfusion hrw'
      | ok r =>
        cases r with
        | some cts' =>
          rw [show rollback s0 start_ts k fuel =
              .error (.alreadyCommitted cts') from by
            simp only [rollback, rollback_impl, hm, hl0, hgt]] at hrw'
          exact Except.noConfusion hrw'
        | none =>
          obtain hws : ws = [] ++ write_meta k m0 := by
            have hx : rollback s0 start_ts k fuel =
                .ok ([] ++ write_meta k m0) := by
              simp only [rollback, rollback_impl, hm, hl0, hgt]
            rw [hx] at hrw'
            exact (Except.ok.inj hrw').symm
          subst hws
          rw [List.nil_append, hwm]
          have hagree := load_meta_head_rewrite s0 k m0 hm
          refine commit_fails_when_rolled_back _ k start_ts commit_ts fuel2 m0
            ?_ ?_ ((get_txn_walk_congr s0 _ k start_ts hagree fuel2 m0).trans htx)
          · rw [hagree FIRST_META_INDEX]
            exact hm
          · intro lock hlock
            simp only [load_lock, applyAll_cons, applyAll_nil,
              lockCF_putDefault] at hlock
            rw [show (s0.lockCF k) = load_lock s0 k from rfl, hl0] at hlock
            cases hlock
    · by_cases heq : lock.start_ts = start_ts
      · -- matched lock: pending value deleted, lock deleted, head rewritten
        obtain hws :
            ws = [Modify.delDefault k lock.start_ts, Modify.delLock k] ++
              write_meta k m0 := by
          have hx : rollback s0 start_ts k fuel =
              .ok ([Modify.delDefault k lock.start_ts, Modify.delLock k] ++
                write_meta k m0) := by
            simp only [rollback, rollback_impl, hm, hl0, if_pos heq]
          rw [hx] at hrw'
          exact (Except.ok.inj hrw').symm
        subst hws
        rw [hwm, heq]
        simp only [List.cons_append, List.nil_append]
        obtain ⟨hag, hblank, hfirst, hlnone⟩ :=
          rollback_matched_state s0 k start_ts m0 hm
        have hlockgone : ∀ lock', load_lock (s0.applyAll
            [Modify.delDefault k start_ts, Modify.delLock k,
             Modify.putDefault k FIRST_META_INDEX (.page m0)]) k =
            some lock' → lock'.start_ts ≠ start_ts := by
          intro lock' hlock'
          rw [show load_lock (s0.applyAll [Modify.delDefault k start_ts,
              Modify.delLock k, Modify.putDefault k FIRST_META_INDEX
                (.page m0)]) k = none from hlnone] at hlock'
          cases hlock'
        by_cases hts0 : start_ts = FIRST_META_INDEX
        · subst hts0
          have hagree : ∀ i, load_meta (s0.applyAll
              [Modify.delDefault k FIRST_META_INDEX, Modify.delLock k,
               Modify.putDefault k FIRST_META_INDEX (.page m0)]) k i =
              load_meta s0 k i := by
            intro i
            by_cases hit : i = FIRST_META_INDEX
            · subst hit
              rw [hfirst, hm]
            · exact hag i hit
          exact commit_fails_when_rolled_back _ k FIRST_META_INDEX commit_ts
            fuel2 m0 hfirst hlockgone
            ((get_txn_walk_congr s0 _ k FIRST_META_INDEX hagree fuel2
              m0).trans htx)
        · exact commit_fails_when_rolled_back _ k start_ts commit_ts fuel2 m0
            hfirst hlockgone
            (get_txn_walk_none_stable s0 _ k start_ts start_ts
              (hblank hts0) hag fuel2 m0 htx)
      · -- foreign lock: the rollback itself verified the chain
        cases hgt : get_txn_commit_ts s0 k start_ts fuel m0 with
        | error e =>
          rw [show rollback s0 start_ts k fuel = .error e from by
            simp only [rollback, rollback_impl, hm, hl0, if_neg heq, hgt]] at hrw'
          exact Except.noConfusion hrw'
        | ok r =>
          cases r with
          | some cts' =>
            rw [show rollback s0 start_ts k fuel =
                .error (.alreadyCommitted cts') from by
              simp only [rollback, rollback_impl, hm, hl0, if_neg heq,
                hgt]] at hrw'
            exact Except.noConfusion hrw'
          | none =>
            obtain hws : ws = [] ++ write_meta k m0 := by
              have hx : rollback s0 start_ts k fuel =
                  .ok ([] ++ write_meta k m0) := by
                simp only [rollback, rollback_impl, hm, hl0, if_neg heq, hgt]
              rw [hx] at hrw'
              exact (Except.ok.inj hrw').symm
            subst hws
            rw [List.nil_append, hwm]
            have hagree := load_meta_head_rewrite s0 k m0 hm
            refine commit_fails_when_rolled_back _ k start_ts commit_ts fuel2
              m0 ?_ ?_
              ((get_txn_walk_congr s0 _ k start_ts hagree fuel2 m0).trans htx)
            · rw [hagree FIRST_META_INDEX]
              exact hm
            · intro lock' hlock'
              simp only [load_lock, applyAll_cons, applyAll_nil,
                lockCF_putDefault] at hlock'
              rw [show (s0.lockCF k) = load_lock s0 k from rfl, hl0] at hlock'
              cases Option.some.inj hlock'
              exact heq
  · intro s0 start_ts commit_ts k fuel fuel2 lock s1 hl hlts hlty hcr
    obtain ⟨ws, hcw, hs1⟩ :
        ∃ ws, commit s0 start_ts k commit_ts fuel = .ok ws ∧
          s1 = s0.applyAll ws := by
      unfold commitRun at hcr
      cases hx : commit s0 start_ts k commit_ts fuel with
      | error e => rw [hx] at hcr; cases hcr
      | ok ws => rw [hx] at hcr; exact ⟨ws, rfl, (Except.ok.inj hcr).symm⟩
    rcases hm : load_meta s0 k FIRST_META_INDEX with e | m0
    · simp only [commit, hm] at hcw
      cases hcw
    · have hc := commit_matched_rw s0 k start_ts commit_ts fuel m0 lock
        hm hl hlts hlty
      rw [hc] at hcw
      obtain hws := (Except.ok.inj hcw)
      subst hws
      subst hs1
      obtain ⟨hg1, hg2⟩ := commit_writes_state s0 k
        (m0.push_item ⟨start_ts, commit_ts⟩)
      obtain ⟨rest, hHitems⟩ := push_split_head m0 ⟨start_ts, commit_ts⟩
      have hmeta2 : load_meta (s0.applyAll ([Modify.delLock k] ++
          write_meta k (m0.push_item ⟨start_ts, commit_ts⟩))) k
          FIRST_META_INDEX =
          .ok ((m0.push_item ⟨start_ts, commit_ts⟩).split).2 := by
        unfold load_meta
        rw [hg1]
      have htxn := get_txn_commit_ts_head (s0.applyAll ([Modify.delLock k] ++
          write_meta k (m0.push_item ⟨start_ts, commit_ts⟩))) k
        start_ts commit_ts fuel2
        ((m0.push_item ⟨start_ts, commit_ts⟩).split).2 rest hHitems
      unfold rollbackRun
      simp only [rollback, hmeta2, rollback_impl, load_lock, hg2, htxn]
      rfl

/-- C4 counterexample: after committing a ReadOnly `Lock("x")`
transaction, a rollback of the same `start_ts` succeeds as a no-op
(`errOf … = none`) instead of failing with `AlreadyCommitted`. -/
theorem C4_readonly_rollback_counterexample :
    prewriteRun EngineState.empty 5 (.lock xK) xK = .ok lockS1 ∧
    commitRun lockS1 5 xK 10 0 = .ok lockS2 ∧
    errOf (rollbackRun lockS2 5 xK 0) = none :=
  ⟨rfl, rfl, rfl⟩

/-- C4 witness: commit after a rollback on a two-page meta chain
(head `{20, 25}` linking to an overflow page `{10, 15}`) fails with
`TxnLockNotFound`; rollback after committing a ReadWrite lock fails
with `AlreadyCommitted 10`. -/
theorem C4_commit_rollback_exclusion_witness :
    commitRun chainS1 5 xK 30 1 = .error .txnLockNotFound ∧
    rollbackRun rwCommitted 5 xK 0 = .error (.alreadyCommitted 10) :=
  ⟨C4_commit_rollback_exclusion.1 chainS0 5 30 xK 1 1
      ⟨[⟨20, 25⟩], some 1⟩ chainS1 rfl (by decide) rfl rfl,
   C4_commit_rollback_exclusion.2 rwLockState 5 10 xK 0 0
      ⟨.readWrite, xK, 5⟩ rwCommitted rfl rfl rfl rfl⟩

end Tikv
